import Mathlib

/-!
Verification of the kabob monorepo package manager.

The definitions below are shallow embeddings of the JavaScript/TypeScript
sources of the repository:

* `src/utils/package-json.js` — direct manifest mutation (`addDependencies`,
  `removeDependencies`);
* `index.js` — lockfile-based package-manager detection
  (`detectPackageManager`), workspace discovery (`findWorkspaces`), the
  per-manager command table (`executeInWorkspace`), internal package
  enumeration (`findInternalPackages`) and the interactive selector values
  (`selectInternalPackages`);
* `src/index.ts` — the TypeScript variant of workspace discovery
  (`findWorkspacesTs`) and of the interactive workspace choice list
  (`buildWorkspaceChoices`);
* `src/commands/package.ts` — pattern resolution in its own
  `findInternalPackages` and the scaffolder (`createPackage`).

JSON objects are modelled as ordered association lists (JavaScript objects
preserve insertion order), file systems as explicit records, and every
filesystem- or prompt-dependent input is passed as an explicit argument
(oracle functions for `find-up` and `glob`).  Fallible code returns
`Except`/`Option`; machine integers play no role in this program.
-/

namespace Kabob

/-- Ordered JSON object fields: JavaScript objects keep insertion order, so a
dependency map (or any string-to-string object) is an association list. -/
abbrev DepMap := List (String × String)

/-- Embeds the JavaScript assignment `obj[k] = v`: an existing key is updated
in place (keeping its position), a new key is appended at the end. -/
def setKey : DepMap → String → String → DepMap
  | [], k, v => [(k, v)]
  | (k₀, v₀) :: rest, k, v =>
      if k₀ = k then (k, v) :: rest else (k₀, v₀) :: setKey rest k v

/-- Embeds the JavaScript statement `delete obj[k]`: the key is removed from
the object (a no-op when the key is absent). -/
def delKey (m : DepMap) (k : String) : DepMap :=
  m.filter (fun p => p.1 ≠ k)

/-- Embeds the JavaScript expression `dep.replace(/@workspace:$/, '')` from
`src/utils/package-json.js` (used by both `addDependencies` and
`removeDependencies`): removes a single trailing `@workspace:` occurrence
when the string ends with it, and returns the string unchanged otherwise. -/
def stripWorkspaceSuffix (dep : String) : String :=
  if "@workspace:".data <:+ dep.data then
    ⟨dep.data.take (dep.data.length - "@workspace:".data.length)⟩
  else dep

/-- A parsed `package.json` manifest.  The fields named by the spec are kept
apart; all remaining top-level JSON fields are collected, in order, in
`otherFields`.  `private` is a Lean keyword, hence `isPrivate`. -/
structure Manifest where
  name : Option String := none
  version : Option String := none
  description : Option String := none
  scripts : DepMap := []
  devDependencies : Option DepMap := none
  dependencies : Option DepMap := none
  isPrivate : Bool := false
  otherFields : DepMap := []
deriving DecidableEq

/-- Embeds `addDependencies(workspacePath, dependencies, packageManager)` from
`src/utils/package-json.js`, acting on the parsed manifest: initialises the
`dependencies` object when absent, then for each requested dependency writes
the key `stripWorkspaceSuffix dep` with value `workspace:*` under pnpm and `*`
otherwise, and stores the updated object back in the manifest. -/
def addDependencies (pkgJson : Manifest) (dependencies : List String)
    (packageManager : String) : Manifest :=
  let deps₀ := pkgJson.dependencies.getD []
  let deps₁ := dependencies.foldl
    (fun acc dep =>
      let name := stripWorkspaceSuffix dep
      setKey acc name (if packageManager = "pnpm" then "workspace:*" else "*"))
    deps₀
  { pkgJson with dependencies := some deps₁ }

/-- Embeds `removeDependencies(workspacePath, dependencies)` from
`src/utils/package-json.js`: when the manifest has a `dependencies` object,
each requested dependency has its `stripWorkspaceSuffix` key deleted;
otherwise the manifest is rewritten unchanged. -/
def removeDependencies (pkgJson : Manifest) (dependencies : List String) :
    Manifest :=
  match pkgJson.dependencies with
  | none => pkgJson
  | some deps =>
      { pkgJson with
        dependencies :=
          some (dependencies.foldl
            (fun acc dep => delKey acc (stripWorkspaceSuffix dep)) deps) }

theorem lookup_setKey (m : DepMap) (k k' v : String) :
    (setKey m k v).lookup k' = if k = k' then some v else m.lookup k' := by
  induction m with
  | nil =>
      by_cases h : k = k'
      · subst h
        simp [setKey]
      · have hb : (k' == k) = false := by
          simp only [beq_eq_false_iff_ne, ne_eq]
          exact fun e => h e.symm
        simp [setKey, List.lookup_cons, hb, h]
  | cons p rest ih =>
      obtain ⟨k₀, v₀⟩ := p
      by_cases h : k₀ = k
      · subst h
        by_cases h' : k₀ = k'
        · subst h'
          simp [setKey]
        · have hb : (k' == k₀) = false := by
            simp only [beq_eq_false_iff_ne, ne_eq]
            exact fun e => h' e.symm
          simp [setKey, List.lookup_cons, hb, h']
      · simp only [setKey, if_neg h]
        by_cases h' : k₀ = k'
        · subst h'
          have hk : ¬ k = k₀ := fun e => h e.symm
          simp [if_neg hk]
        · have hb : (k' == k₀) = false := by
            simp only [beq_eq_false_iff_ne, ne_eq]
            exact fun e => h' e.symm
          simp [List.lookup_cons, hb, ih]

theorem lookup_fold_preserved (l : List String) (tok dep : String) :
    ∀ acc : DepMap, acc.lookup (stripWorkspaceSuffix dep) = some tok →
    (l.foldl (fun acc d => setKey acc (stripWorkspaceSuffix d) tok) acc).lookup
      (stripWorkspaceSuffix dep) = some tok := by
  induction l with
  | nil => exact fun acc h => h
  | cons e tail ih =>
      intro acc h
      simp only [List.foldl_cons]
      apply ih
      rw [lookup_setKey]
      split
      · rfl
      · exact h

theorem lookup_addDependencies_fold (l : List String) (acc : DepMap)
    (tok : String) (dep : String) (h : dep ∈ l) :
    (l.foldl (fun acc d => setKey acc (stripWorkspaceSuffix d) tok) acc).lookup
      (stripWorkspaceSuffix dep) = some tok := by
  induction l generalizing acc with
  | nil => cases h
  | cons d rest ih =>
      simp only [List.foldl_cons]
      rcases List.mem_cons.mp h with rfl | h
      · apply lookup_fold_preserved
        rw [lookup_setKey]
        simp
      · exact ih _ h

/-- Claim C1: for every manifest and every list of dependency names, the
internal-add operation (`addDependencies`) records each dependency in the
manifest's `dependencies` map with the value exactly `workspace:*` when the
governing package manager is pnpm, and exactly `*` when it is npm or yarn
(the key being the `@workspace:`-stripped dependency string). -/
theorem addDependencies_internal_version_token (pkgJson : Manifest)
    (dependencies : List String) (packageManager dep : String)
    (h : dep ∈ dependencies) :
    (packageManager = "pnpm" →
      ((addDependencies pkgJson dependencies packageManager).dependencies.getD
        []).lookup (stripWorkspaceSuffix dep) = some "workspace:*") ∧
    (packageManager = "npm" ∨ packageManager = "yarn" →
      ((addDependencies pkgJson dependencies packageManager).dependencies.getD
        []).lookup (stripWorkspaceSuffix dep) = some "*") := by
  have base :
      ((addDependencies pkgJson dependencies packageManager).dependencies.getD
          []).lookup (stripWorkspaceSuffix dep)
        = some (if packageManager = "pnpm" then "workspace:*" else "*") := by
    simp only [addDependencies, Option.getD_some]
    exact lookup_addDependencies_fold dependencies _ _ dep h
  constructor
  · intro hpm
    rwa [if_pos hpm] at base
  · intro hpm
    rw [if_neg ?hne] at base
    · exact base
    · rcases hpm with hpm | hpm <;> subst hpm <;> simp

/-- Witness for claim C1: adding the internal package `pkg-a` to an empty
manifest under pnpm stores the entry `pkg-a ↦ workspace:*`. -/
theorem addDependencies_internal_version_token_witness :
    ((addDependencies {} ["pkg-a"] "pnpm").dependencies.getD []).lookup
      "pkg-a" = some "workspace:*" := by
  have h :=
    (addDependencies_internal_version_token {} ["pkg-a"] "pnpm" "pkg-a"
      (by simp)).1 rfl
  have e : stripWorkspaceSuffix "pkg-a" = "pkg-a" := by decide
  rwa [e] at h

theorem delKey_eq_of_lookup_none (m : DepMap) (k : String)
    (h : m.lookup k = none) : delKey m k = m := by
  induction m with
  | nil => rfl
  | cons p rest ih =>
      obtain ⟨k₀, v₀⟩ := p
      rw [List.lookup_cons] at h
      by_cases hk : k == k₀
      · rw [hk] at h
        cases h
      · rw [Bool.not_eq_true] at hk
        rw [hk] at h
        have hne : k₀ ≠ k := by
          intro e
          subst e
          simp at hk
        have hstep : delKey ((k₀, v₀) :: rest) k = (k₀, v₀) :: delKey rest k := by
          simp [delKey, List.filter_cons, hne]
        rw [hstep, ih h]

theorem removeDependencies_noop_fold (l : List String) (deps : DepMap)
    (h : ∀ d ∈ l, deps.lookup (stripWorkspaceSuffix d) = none) :
    l.foldl (fun acc d => delKey acc (stripWorkspaceSuffix d)) deps = deps := by
  induction l with
  | nil => rfl
  | cons d rest ih =>
      simp only [List.foldl_cons]
      rw [delKey_eq_of_lookup_none deps _ (h d (List.mem_cons_self d rest))]
      exact ih fun e he => h e (List.mem_cons_of_mem d he)

/-- Counterexample to claim C7 as stated: the dependency name `a@workspace:`
is not a key of the dependency map `{"a": "*"}`, yet `removeDependencies`
does change the map, because the code first strips a trailing `@workspace:`
(giving the key `a`) and then deletes that key. -/
theorem removeDependencies_missing_name_counterexample :
    (([("a", "*")] : DepMap).lookup "a@workspace:" = none) ∧
    (removeDependencies { dependencies := some [("a", "*")] }
        ["a@workspace:"]).dependencies
      ≠ ({ dependencies := some [("a", "*")] } : Manifest).dependencies := by
  decide

/-- Claim C7 (amended): for every manifest and every list of dependency names
whose `@workspace:`-stripped forms are not present in the manifest's
dependency map, `removeDependencies` completes without raising an error (it
is a total function) and leaves the manifest — in particular its dependency
map — equal to its previous value. -/
theorem removeDependencies_absent_noop (pkgJson : Manifest)
    (dependencies : List String)
    (h : ∀ d ∈ dependencies,
      (pkgJson.dependencies.getD []).lookup (stripWorkspaceSuffix d) = none) :
    removeDependencies pkgJson dependencies = pkgJson := by
  obtain ⟨n, v, desc, s, dd, dep, priv, oth⟩ := pkgJson
  cases dep with
  | none => rfl
  | some deps =>
      simp only [removeDependencies]
      rw [removeDependencies_noop_fold dependencies deps (by simpa using h)]

/-- Witness for claim C7 (amended): removing the absent dependency `b` from a
manifest whose dependency map is `{"a": "*"}` leaves the manifest unchanged. -/
theorem removeDependencies_absent_noop_witness :
    removeDependencies { dependencies := some [("a", "*")] } ["b"]
      = ({ dependencies := some [("a", "*")] } : Manifest) :=
  removeDependencies_absent_noop _ _ (by decide)

/-- Claim C9: the internal dependency mutators `addDependencies` and
`removeDependencies` change at most the `dependencies` field of the manifest;
every other field (name, version, description, scripts, devDependencies, the
private marker and all remaining fields) has the same value in the rewritten
manifest as in the original. -/
theorem mutators_touch_only_dependencies (pkgJson : Manifest)
    (dependencies : List String) (packageManager : String) :
    ((addDependencies pkgJson dependencies packageManager).name = pkgJson.name
      ∧ (addDependencies pkgJson dependencies packageManager).version
          = pkgJson.version
      ∧ (addDependencies pkgJson dependencies packageManager).description
          = pkgJson.description
      ∧ (addDependencies pkgJson dependencies packageManager).scripts
          = pkgJson.scripts
      ∧ (addDependencies pkgJson dependencies packageManager).devDependencies
          = pkgJson.devDependencies
      ∧ (addDependencies pkgJson dependencies packageManager).isPrivate
          = pkgJson.isPrivate
      ∧ (addDependencies pkgJson dependencies packageManager).otherFields
          = pkgJson.otherFields) ∧
    ((removeDependencies pkgJson dependencies).name = pkgJson.name
      ∧ (removeDependencies pkgJson dependencies).version = pkgJson.version
      ∧ (removeDependencies pkgJson dependencies).description
          = pkgJson.description
      ∧ (removeDependencies pkgJson dependencies).scripts = pkgJson.scripts
      ∧ (removeDependencies pkgJson dependencies).devDependencies
          = pkgJson.devDependencies
      ∧ (removeDependencies pkgJson dependencies).isPrivate
          = pkgJson.isPrivate
      ∧ (removeDependencies pkgJson dependencies).otherFields
          = pkgJson.otherFields) := by
  obtain ⟨n, v, desc, s, dd, dep, priv, oth⟩ := pkgJson
  cases dep <;>
    exact ⟨⟨rfl, rfl, rfl, rfl, rfl, rfl, rfl⟩,
      ⟨rfl, rfl, rfl, rfl, rfl, rfl, rfl⟩⟩

/-- The lockfile table of `detectPackageManager` in `index.js`, in its
iteration order: `yarn.lock` ↦ yarn, `package-lock.json` ↦ npm,
`pnpm-lock.yaml` ↦ pnpm. -/
def lockFiles : List (String × String) :=
  [("yarn.lock", "yarn"), ("package-lock.json", "npm"),
   ("pnpm-lock.yaml", "pnpm")]

/-- Embeds `detectPackageManager` from `index.js`.  The `findUp` oracle
abstracts the `find-up` library: it returns the path of the named file in the
nearest ancestor directory of the working directory, or `none` when no
ancestor contains it.  The loop returns the manager of the first table entry
whose lockfile is found, and defaults to npm. -/
def detectPackageManager (findUp : String → Option String) : String :=
  match lockFiles.find? (fun entry => (findUp entry.1).isSome) with
  | some entry => entry.2
  | none => "npm"

/-- Claim C5: package-manager detection searches the ancestor directories (via
the `findUp` oracle) for the three recognized lockfiles in the fixed priority
order `yarn.lock` (yarn), `package-lock.json` (npm), `pnpm-lock.yaml` (pnpm),
returns the manager of the first lockfile found, and returns npm as the
default when no lockfile is found anywhere above the working directory. -/
theorem detectPackageManager_priority_order (findUp : String → Option String) :
    ((findUp "yarn.lock").isSome = true →
      detectPackageManager findUp = "yarn") ∧
    (findUp "yarn.lock" = none →
      (findUp "package-lock.json").isSome = true →
      detectPackageManager findUp = "npm") ∧
    (findUp "yarn.lock" = none → findUp "package-lock.json" = none →
      (findUp "pnpm-lock.yaml").isSome = true →
      detectPackageManager findUp = "pnpm") ∧
    (findUp "yarn.lock" = none → findUp "package-lock.json" = none →
      findUp "pnpm-lock.yaml" = none →
      detectPackageManager findUp = "npm") := by
  refine ⟨fun h1 => ?_, fun h1 h2 => ?_, fun h1 h2 h3 => ?_,
    fun h1 h2 h3 => ?_⟩
  · simp [detectPackageManager, lockFiles, List.find?_cons, h1]
  · simp [detectPackageManager, lockFiles, List.find?_cons, h1, h2]
  · simp [detectPackageManager, lockFiles, List.find?_cons, h1, h2, h3]
  · simp [detectPackageManager, lockFiles, List.find?_cons, h1, h2, h3]

/-- Witness for claim C5: with only a `package-lock.json` present in some
ancestor directory, detection returns npm. -/
theorem detectPackageManager_priority_order_witness :
    detectPackageManager
      (fun file => if file = "package-lock.json"
        then some "/repo/package-lock.json" else none) = "npm" :=
  (detectPackageManager_priority_order _).2.1 (by decide) (by decide)

/-- Embeds `packages.join(' ')` from the command templates in
`executeInWorkspace` (`index.js`). -/
def joinPackages (packages : List String) : String :=
  " ".intercalate packages

/-- Embeds the `commands` lookup table of `executeInWorkspace` in `index.js`:
for each package manager and action it produces the executable command line
(a flat string built by template literals), and `none` when the combination
is not in the table (the code then throws `Unknown command`). -/
def commandString (packageManager command : String) (packages : List String)
    (packageName : String) : Option String :=
  match packageManager, command with
  | "npm", "add" =>
      some ("npm install " ++ joinPackages packages
        ++ " --workspace=" ++ packageName)
  | "npm", "remove" =>
      some ("npm uninstall " ++ joinPackages packages
        ++ " --workspace=" ++ packageName)
  | "npm", "install" => some ("npm install --workspace=" ++ packageName)
  | "yarn", "add" =>
      some ("yarn workspace " ++ packageName ++ " add "
        ++ joinPackages packages)
  | "yarn", "remove" =>
      some ("yarn workspace " ++ packageName ++ " remove "
        ++ joinPackages packages)
  | "yarn", "install" => some ("yarn workspace " ++ packageName ++ " install")
  | "pnpm", "add" =>
      some ("pnpm add " ++ joinPackages packages ++ " --filter "
        ++ packageName)
  | "pnpm", "remove" =>
      some ("pnpm remove " ++ joinPackages packages ++ " --filter "
        ++ packageName)
  | "pnpm", "install" => some ("pnpm install --filter " ++ packageName)
  | _, _ => none

/-- The first whitespace-delimited token of a command line: the characters
before the first space. -/
def firstToken (s : String) : String :=
  ⟨s.data.takeWhile (fun c => c ≠ ' ')⟩

theorem takeWhile_append_stop {p : Char → Bool} (l₁ : List Char) (c : Char)
    (l₂ : List Char) (h₁ : ∀ a ∈ l₁, p a = true) (hc : p c = false) :
    (l₁ ++ c :: l₂).takeWhile p = l₁ := by
  induction l₁ with
  | nil => simp [List.takeWhile_cons, hc]
  | cons a as ih =>
      have ha : p a = true := h₁ a (List.mem_cons_self a as)
      simp only [List.cons_append, List.takeWhile_cons, ha, if_true]
      rw [ih fun b hb => h₁ b (List.mem_cons_of_mem a hb)]

theorem firstToken_append (b r : String)
    (hb : ∀ c ∈ b.data, (decide (c ≠ ' ')) = true) :
    firstToken (b ++ " " ++ r) = b := by
  have hdata : (b ++ " " ++ r).data = b.data ++ ' ' :: r.data := by
    rw [String.data_append, String.data_append]
    simp [List.append_assoc]
  rw [firstToken, hdata,
    takeWhile_append_stop b.data ' ' r.data hb (by decide)]

theorem string_assoc (a b c : String) : a ++ b ++ c = a ++ (b ++ c) := by
  apply String.ext
  rw [String.data_append, String.data_append, String.data_append,
    String.data_append, List.append_assoc]

/-- Claim C6: for every supported package manager (npm, yarn, pnpm) and every
action in add/remove/install, the command table of `executeInWorkspace`
produces a command line whose first token is that manager's binary name. -/
theorem commandString_first_token (packageManager command : String)
    (packages : List String) (packageName : String)
    (hpm : packageManager ∈ ["npm", "yarn", "pnpm"])
    (hcmd : command ∈ ["add", "remove", "install"]) :
    ∃ line, commandString packageManager command packages packageName
        = some line ∧ firstToken line = packageManager := by
  have hsp : ∀ b : String, b = "npm" ∨ b = "yarn" ∨ b = "pnpm" →
      ∀ c ∈ b.data, (decide (c ≠ ' ')) = true := by
    rintro b (rfl | rfl | rfl) <;> decide
  simp only [List.mem_cons, List.mem_singleton, List.not_mem_nil,
    or_false] at hpm hcmd
  rcases hpm with rfl | rfl | rfl <;> rcases hcmd with rfl | rfl | rfl <;>
    refine ⟨_, rfl, ?_⟩
  · rw [show ("npm install " ++ joinPackages packages ++ " --workspace="
        ++ packageName : String)
      = "npm" ++ " " ++ ("install " ++ joinPackages packages
        ++ " --workspace=" ++ packageName) by
      rw [show ("npm install " : String) = "npm" ++ " " ++ "install " by decide]
      simp only [string_assoc]]
    exact firstToken_append _ _ (hsp "npm" (Or.inl rfl))
  · rw [show ("npm uninstall " ++ joinPackages packages ++ " --workspace="
        ++ packageName : String)
      = "npm" ++ " " ++ ("uninstall " ++ joinPackages packages
        ++ " --workspace=" ++ packageName) by
      rw [show ("npm uninstall " : String)
        = "npm" ++ " " ++ "uninstall " by decide]
      simp only [string_assoc]]
    exact firstToken_append _ _ (hsp "npm" (Or.inl rfl))
  · rw [show ("npm install --workspace=" ++ packageName : String)
      = "npm" ++ " " ++ ("install --workspace=" ++ packageName) by
      rw [show ("npm install --workspace=" : String)
        = "npm" ++ " " ++ "install --workspace=" by decide]
      simp only [string_assoc]]
    exact firstToken_append _ _ (hsp "npm" (Or.inl rfl))
  · rw [show ("yarn workspace " ++ packageName ++ " add "
        ++ joinPackages packages : String)
      = "yarn" ++ " " ++ ("workspace " ++ packageName ++ " add "
        ++ joinPackages packages) by
      rw [show ("yarn workspace " : String)
        = "yarn" ++ " " ++ "workspace " by decide]
      simp only [string_assoc]]
    exact firstToken_append _ _ (hsp "yarn" (Or.inr (Or.inl rfl)))
  · rw [show ("yarn workspace " ++ packageName ++ " remove "
        ++ joinPackages packages : String)
      = "yarn" ++ " " ++ ("workspace " ++ packageName ++ " remove "
        ++ joinPackages packages) by
      rw [show ("yarn workspace " : String)
        = "yarn" ++ " " ++ "workspace " by decide]
      simp only [string_assoc]]
    exact firstToken_append _ _ (hsp "yarn" (Or.inr (Or.inl rfl)))
  · rw [show ("yarn workspace " ++ packageName ++ " install" : String)
      = "yarn" ++ " " ++ ("workspace " ++ packageName ++ " install") by
      rw [show ("yarn workspace " : String)
        = "yarn" ++ " " ++ "workspace " by decide]
      simp only [string_assoc]]
    exact firstToken_append _ _ (hsp "yarn" (Or.inr (Or.inl rfl)))
  · rw [show ("pnpm add " ++ joinPackages packages ++ " --filter "
        ++ packageName : String)
      = "pnpm" ++ " " ++ ("add " ++ joinPackages packages ++ " --filter "
        ++ packageName) by
      rw [show ("pnpm add " : String) = "pnpm" ++ " " ++ "add " by decide]
      simp only [string_assoc]]
    exact firstToken_append _ _ (hsp "pnpm" (Or.inr (Or.inr rfl)))
  · rw [show ("pnpm remove " ++ joinPackages packages ++ " --filter "
        ++ packageName : String)
      = "pnpm" ++ " " ++ ("remove " ++ joinPackages packages ++ " --filter "
        ++ packageName) by
      rw [show ("pnpm remove " : String)
        = "pnpm" ++ " " ++ "remove " by decide]
      simp only [string_assoc]]
    exact firstToken_append _ _ (hsp "pnpm" (Or.inr (Or.inr rfl)))
  · rw [show ("pnpm install --filter " ++ packageName : String)
      = "pnpm" ++ " " ++ ("install --filter " ++ packageName) by
      rw [show ("pnpm install --filter " : String)
        = "pnpm" ++ " " ++ "install --filter " by decide]
      simp only [string_assoc]]
    exact firstToken_append _ _ (hsp "pnpm" (Or.inr (Or.inr rfl)))

/-- Witness for claim C6: the pnpm add command for two packages in workspace
`web` starts with the token `pnpm`. -/
theorem commandString_first_token_witness :
    ∃ line, commandString "pnpm" "add" ["react", "left-pad"] "web"
        = some line ∧ firstToken line = "pnpm" :=
  commandString_first_token "pnpm" "add" ["react", "left-pad"] "web"
    (by decide) (by decide)

/-- The `workspaces` field of a root manifest: either an array of glob
patterns or an object with an optional `packages` array. -/
inductive WorkspacesField where
  | arr (patterns : List String)
  | obj (packages : Option (List String))
deriving DecidableEq

/-- Embeds the pattern-resolution prelude of `findWorkspaces` (`index.js`
lines 61-79): patterns come from the manifest's `workspaces` field (array, or
object's `packages`, else empty); when `pnpm-workspace.yaml` is readable and
has a `packages` key (modelled by `pnpmPackages = some _`), those packages
replace whatever the manifest provided. -/
def resolveWorkspacePatterns (workspacesField : Option WorkspacesField)
    (pnpmPackages : Option (List String)) : List String :=
  let fromManifest :=
    match workspacesField with
    | none => []
    | some (.arr patterns) => patterns
    | some (.obj packages) => packages.getD []
  match pnpmPackages with
  | some packages => packages
  | none => fromManifest

/-- Embeds the pattern resolution inside `findInternalPackages` of
`src/commands/package.ts` (lines 210-218): the manifest's `workspaces` field
when present, else the literal default pair; `pnpm-workspace.yaml` is never
consulted there. -/
def resolvePatternsPackageTs (workspacesField : Option WorkspacesField) :
    List String :=
  match workspacesField with
  | some (.arr patterns) => patterns
  | some (.obj packages) => packages.getD []
  | none => ["packages/*", "apps/*"]

/-- Embeds the per-pattern normalisation of `findWorkspaces`: a pattern not
already ending in `package.json` gets `/package.json` appended
(`path.join(pattern, 'package.json')`). -/
def toPackageJsonPattern (pattern : String) : String :=
  if "package.json".data <:+ pattern.data then pattern
  else pattern ++ "/package.json"

/-- Embeds `path.dirname` for the slash-separated paths produced by glob:
everything before the final slash (`.` when there is no slash). -/
def dirname (p : String) : String :=
  match p.data.reverse.dropWhile (fun c => c ≠ '/') with
  | [] => "."
  | _ :: rest => ⟨rest.reverse⟩

/-- Lexicographic comparison of character lists by code point; this is the
default JavaScript `Array.prototype.sort()` comparison applied to path
strings. -/
def charListLe : List Char → List Char → Bool
  | [], _ => true
  | _ :: _, [] => false
  | a :: as, b :: bs =>
      if a < b then true
      else if b < a then false
      else charListLe as bs

/-- String comparison used by the JavaScript default sort. -/
def jsStrLe (a b : String) : Bool :=
  charListLe a.data b.data

/-- Embeds `[...new Set(list)]`: duplicates removed, first occurrences kept
in encounter order. -/
def jsSetDedup : List String → List String
  | [] => []
  | x :: xs => x :: jsSetDedup (xs.filter (fun y => y ≠ x))
termination_by l => l.length
decreasing_by
  simp only [List.length_cons]
  exact Nat.lt_succ_of_le (List.length_filter_le _ _)

/-- Embeds `findWorkspaces` from `index.js` (lines 52-106): resolve the
patterns, fall back to the root directory alone when none are configured,
otherwise glob each normalised pattern (the `glob` oracle returns the
matching `package.json` paths the filesystem yields, `node_modules`
excluded), take the containing directories, and return them deduplicated and
sorted (`[...new Set(allWorkspacePaths)].sort()`). -/
def findWorkspaces (rootDir : String)
    (workspacesField : Option WorkspacesField)
    (pnpmPackages : Option (List String)) (glob : String → List String) :
    List String :=
  let workspacePatterns := resolveWorkspacePatterns workspacesField pnpmPackages
  if workspacePatterns.isEmpty then [rootDir]
  else
    let allWorkspacePaths := workspacePatterns.flatMap
      (fun pattern => (glob (toPackageJsonPattern pattern)).map dirname)
    List.insertionSort (fun a b => jsStrLe a b = true)
      (jsSetDedup allWorkspacePaths)

/-- Embeds `findWorkspaces` from `src/index.ts` (lines 47-96): identical to
the JavaScript version except that it returns `allWorkspacePaths` directly,
with no deduplication and no sorting. -/
def findWorkspacesTs (rootDir : String)
    (workspacesField : Option WorkspacesField)
    (pnpmPackages : Option (List String)) (glob : String → List String) :
    List String :=
  let workspacePatterns := resolveWorkspacePatterns workspacesField pnpmPackages
  if workspacePatterns.isEmpty then [rootDir]
  else
    workspacePatterns.flatMap
      (fun pattern => (glob (toPackageJsonPattern pattern)).map dirname)

theorem charListLe_total (a : List Char) :
    ∀ b, charListLe a b = true ∨ charListLe b a = true := by
  induction a with
  | nil => intro b; left; rfl
  | cons x xs ih =>
      intro b
      cases b with
      | nil => right; rfl
      | cons y ys =>
          rcases lt_trichotomy x y with h | h | h
          · left
            simp [charListLe, h]
          · subst h
            rcases ih ys with h | h
            · left
              simp [charListLe, lt_irrefl, h]
            · right
              simp [charListLe, lt_irrefl, h]
          · right
            simp [charListLe, h]

theorem charListLe_trans (a : List Char) :
    ∀ b c, charListLe a b = true → charListLe b c = true →
      charListLe a c = true := by
  induction a with
  | nil => intro b c _ _; rfl
  | cons x xs ih =>
      intro b c hab hbc
      cases b with
      | nil => simp [charListLe] at hab
      | cons y ys =>
          cases c with
          | nil => simp [charListLe] at hbc
          | cons z zs =>
              rcases lt_trichotomy x y with hxy | hxy | hxy
              · rcases lt_trichotomy y z with hyz | hyz | hyz
                · simp [charListLe, lt_trans hxy hyz]
                · subst hyz
                  simp [charListLe, hxy]
                · simp [charListLe, hyz, asymm hyz] at hbc
              · subst hxy
                rcases lt_trichotomy x z with hxz | hxz | hxz
                · simp [charListLe, hxz]
                · subst hxz
                  simp only [charListLe, lt_irrefl, if_false] at hab hbc ⊢
                  exact ih ys zs hab hbc
                · simp [charListLe, hxz, asymm hxz] at hbc
              · simp [charListLe, hxy, asymm hxy] at hab

theorem charListLe_antisymm (a : List Char) :
    ∀ b, charListLe a b = true → charListLe b a = true → a = b := by
  induction a with
  | nil =>
      intro b _ hba
      cases b with
      | nil => rfl
      | cons y ys => simp [charListLe] at hba
  | cons x xs ih =>
      intro b hab hba
      cases b with
      | nil => simp [charListLe] at hab
      | cons y ys =>
          rcases lt_trichotomy x y with h | h | h
          · simp [charListLe, h, asymm h] at hba
          · subst h
            simp only [charListLe, lt_irrefl, if_false] at hab hba
            rw [ih ys hab hba]
          · simp [charListLe, h, asymm h] at hab

instance : IsTotal String (fun a b => jsStrLe a b = true) :=
  ⟨fun a b => charListLe_total a.data b.data⟩

instance : IsTrans String (fun a b => jsStrLe a b = true) :=
  ⟨fun a b c => charListLe_trans a.data b.data c.data⟩

instance : IsAntisymm String (fun a b => jsStrLe a b = true) :=
  ⟨fun a b h₁ h₂ => String.ext (charListLe_antisymm a.data b.data h₁ h₂)⟩

theorem mem_jsSetDedup (l : List String) (a : String) :
    a ∈ jsSetDedup l ↔ a ∈ l := by
  induction l using jsSetDedup.induct with
  | case1 => simp [jsSetDedup]
  | case2 x xs ih =>
      rw [jsSetDedup, List.mem_cons, ih, List.mem_filter]
      by_cases h : a = x
      · subst h
        simp
      · simp [h]

theorem nodup_jsSetDedup (l : List String) : (jsSetDedup l).Nodup := by
  induction l using jsSetDedup.induct with
  | case1 => simp [jsSetDedup]
  | case2 x xs ih =>
      rw [jsSetDedup]
      refine List.nodup_cons.mpr ⟨?_, ih⟩
      intro hmem
      rw [mem_jsSetDedup, List.mem_filter] at hmem
      have : x ≠ x := by simpa using hmem.2
      exact this rfl

theorem jsSetDedup_perm_of_perm {l₁ l₂ : List String} (h : l₁.Perm l₂) :
    (jsSetDedup l₁).Perm (jsSetDedup l₂) := by
  rw [List.perm_ext_iff_of_nodup (nodup_jsSetDedup l₁) (nodup_jsSetDedup l₂)]
  intro a
  rw [mem_jsSetDedup, mem_jsSetDedup]
  exact h.mem_iff

theorem flatMap_perm_of_perm (l : List String) (f g : String → List String)
    (h : ∀ p, (f p).Perm (g p)) : (l.flatMap f).Perm (l.flatMap g) := by
  induction l with
  | nil => rfl
  | cons p rest ih =>
      simp only [List.flatMap_cons]
      exact (h p).append ih

/-- Counterexample to claim C2 as stated: the TypeScript workspace discovery
(`findWorkspaces` in `src/index.ts`, one of the claim's two cited
implementations) returns the glob matches in traversal order, without
deduplication or sorting.  With one pattern whose glob yields
`packages/b, packages/a, packages/b`, discovery returns exactly that
duplicated, unsorted list. -/
theorem findWorkspacesTs_unsorted_counterexample :
    findWorkspacesTs "/repo" (some (.arr ["packages/*"])) none
        (fun p => if p = "packages/*/package.json"
          then ["packages/b/package.json", "packages/a/package.json",
                "packages/b/package.json"]
          else [])
      = ["packages/b", "packages/a", "packages/b"] ∧
    ¬ (["packages/b", "packages/a", "packages/b"] : List String).Nodup := by
  constructor
  · decide
  · decide

/-- Claim C2 (amended): the JavaScript workspace discovery (`findWorkspaces`
in `index.js`) on a root manifest with a non-empty workspace pattern array
returns a sorted, duplicate-free list containing exactly the directories of
the glob matches, and its output is independent of the order in which the
filesystem yields the matches of each pattern.  (The TypeScript variant lacks
the deduplication/sort step; see the counterexample.) -/
theorem findWorkspaces_sorted_dedup_traversal_independent (rootDir : String)
    (patterns : List String) (g₁ g₂ : String → List String)
    (hne : patterns ≠ []) (hperm : ∀ p, (g₁ p).Perm (g₂ p)) :
    (findWorkspaces rootDir (some (.arr patterns)) none g₁).Sorted
        (fun a b => jsStrLe a b = true) ∧
    (findWorkspaces rootDir (some (.arr patterns)) none g₁).Nodup ∧
    (∀ d, d ∈ findWorkspaces rootDir (some (.arr patterns)) none g₁ ↔
      ∃ pat ∈ patterns, d ∈ (g₁ (toPackageJsonPattern pat)).map dirname) ∧
    findWorkspaces rootDir (some (.arr patterns)) none g₁
      = findWorkspaces rootDir (some (.arr patterns)) none g₂ := by
  have hpat : resolveWorkspacePatterns (some (.arr patterns)) none
      = patterns := rfl
  have hempty : patterns.isEmpty = false := by
    cases patterns with
    | nil => exact absurd rfl hne
    | cons p rest => rfl
  have hunfold : ∀ g : String → List String,
      findWorkspaces rootDir (some (.arr patterns)) none g
        = List.insertionSort (fun a b => jsStrLe a b = true)
            (jsSetDedup (patterns.flatMap
              (fun pattern => (g (toPackageJsonPattern pattern)).map dirname))) := by
    intro g
    simp only [findWorkspaces, hpat, hempty, Bool.false_eq_true, if_false]
  refine ⟨?_, ?_, ?_, ?_⟩
  · rw [hunfold g₁]
    exact List.sorted_insertionSort _ _
  · rw [hunfold g₁]
    exact ((List.perm_insertionSort _ _).nodup_iff).mpr
      (nodup_jsSetDedup _)
  · intro d
    rw [hunfold g₁, (List.perm_insertionSort _ _).mem_iff, mem_jsSetDedup,
      List.mem_flatMap]
  · rw [hunfold g₁, hunfold g₂]
    have hflat : (patterns.flatMap
        (fun pattern => (g₁ (toPackageJsonPattern pattern)).map dirname)).Perm
        (patterns.flatMap
          (fun pattern => (g₂ (toPackageJsonPattern pattern)).map dirname)) :=
      flatMap_perm_of_perm patterns _ _
        (fun p => (hperm (toPackageJsonPattern p)).map dirname)
    exact List.eq_of_perm_of_sorted
      (((List.perm_insertionSort _ _).trans
          (jsSetDedup_perm_of_perm hflat)).trans
        (List.perm_insertionSort _ _).symm)
      (List.sorted_insertionSort _ _) (List.sorted_insertionSort _ _)

/-- Witness for claim C2 (amended): two glob oracles that return the matches
of `packages/*` in opposite orders produce the same sorted, duplicate-free
discovery result for the pattern pair `packages/*`, `apps/*`. -/
theorem findWorkspaces_sorted_dedup_traversal_independent_witness :
    (findWorkspaces "/repo" (some (.arr ["packages/*", "apps/*"])) none
        (fun p => if p = "packages/*/package.json"
          then ["packages/a2/package.json", "packages/a1/package.json"]
          else if p = "apps/*/package.json"
          then ["apps/b/package.json"] else [])).Sorted
        (fun a b => jsStrLe a b = true) ∧
    (findWorkspaces "/repo" (some (.arr ["packages/*", "apps/*"])) none
        (fun p => if p = "packages/*/package.json"
          then ["packages/a2/package.json", "packages/a1/package.json"]
          else if p = "apps/*/package.json"
          then ["apps/b/package.json"] else [])).Nodup ∧
    (∀ d, d ∈ findWorkspaces "/repo" (some (.arr ["packages/*", "apps/*"]))
        none
        (fun p => if p = "packages/*/package.json"
          then ["packages/a2/package.json", "packages/a1/package.json"]
          else if p = "apps/*/package.json"
          then ["apps/b/package.json"] else []) ↔
      ∃ pat ∈ ["packages/*", "apps/*"],
        d ∈ ((fun p => if p = "packages/*/package.json"
          then ["packages/a2/package.json", "packages/a1/package.json"]
          else if p = "apps/*/package.json"
          then ["apps/b/package.json"] else [])
            (toPackageJsonPattern pat)).map dirname) ∧
    findWorkspaces "/repo" (some (.arr ["packages/*", "apps/*"])) none
        (fun p => if p = "packages/*/package.json"
          then ["packages/a2/package.json", "packages/a1/package.json"]
          else if p = "apps/*/package.json"
          then ["apps/b/package.json"] else [])
      = findWorkspaces "/repo" (some (.arr ["packages/*", "apps/*"])) none
        (fun p => if p = "packages/*/package.json"
          then ["packages/a1/package.json", "packages/a2/package.json"]
          else if p = "apps/*/package.json"
          then ["apps/b/package.json"] else []) :=
  findWorkspaces_sorted_dedup_traversal_independent "/repo"
    ["packages/*", "apps/*"] _ _ (by decide)
    (by
      intro p
      by_cases h₁ : p = "packages/*/package.json"
      · simp only [h₁, if_pos rfl]
        exact List.Perm.swap _ _ _
      · simp only [if_neg h₁]
        exact List.Perm.refl _)

/-- Counterexample to claim C4 as stated: with no `workspaces` field and no
`pnpm-workspace.yaml`, pattern resolution in `findWorkspaces` yields the
empty list — not the default pair `packages/*`, `apps/*` — and a
`pnpm-workspace.yaml` with a `packages` key overrides a present `workspaces`
field instead of serving as a fallback. -/
theorem resolveWorkspacePatterns_counterexample :
    resolveWorkspacePatterns none none = [] ∧
    resolveWorkspacePatterns none none ≠ ["packages/*", "apps/*"] ∧
    resolveWorkspacePatterns (some (.arr ["custom/*"])) (some ["pnpm/*"])
      = ["pnpm/*"] := by
  refine ⟨rfl, by decide, rfl⟩

/-- Claim C4 (amended): in `findWorkspaces` (`index.js`), the glob patterns
come from the root manifest's `workspaces` field (array form, or the
object's `packages`); when `pnpm-workspace.yaml` provides a `packages` key
it overrides the manifest's patterns; and when no patterns result, discovery
returns just the root directory — there is no default pattern pair there.
The default pair `packages/*`, `apps/*` is used only by
`findInternalPackages` in `src/commands/package.ts` when the `workspaces`
field is absent, and that function never reads `pnpm-workspace.yaml`. -/
theorem workspace_pattern_resolution (workspacesField : Option WorkspacesField)
    (patterns pnpmPkgs : List String) (rootDir : String)
    (glob : String → List String) :
    resolveWorkspacePatterns workspacesField (some pnpmPkgs) = pnpmPkgs ∧
    resolveWorkspacePatterns (some (.arr patterns)) none = patterns ∧
    resolveWorkspacePatterns (some (.obj (some patterns))) none = patterns ∧
    resolveWorkspacePatterns (some (.obj none)) none = [] ∧
    resolveWorkspacePatterns none none = [] ∧
    findWorkspaces rootDir none none glob = [rootDir] ∧
    resolvePatternsPackageTs none = ["packages/*", "apps/*"] ∧
    resolvePatternsPackageTs (some (.arr patterns)) = patterns :=
  ⟨rfl, rfl, rfl, rfl, rfl, rfl, rfl, rfl⟩

/-- Embeds the JavaScript expression `x || d` for an optional string field:
the default is used when the field is missing or empty (falsy). -/
def jsOrDefault (field : Option String) (d : String) : String :=
  match field with
  | some s => if s = "" then d else s
  | none => d

/-- Embeds the JavaScript truthiness test `pkgJson.name` for an optional
string field: present and non-empty. -/
def jsTruthyName : Option String → Bool
  | none => false
  | some s => s ≠ ""

/-- An entry of the internal-package list built by `findInternalPackages` in
`index.js`. -/
structure InternalPackage where
  name : String
  version : String
  path : String
  description : String
deriving DecidableEq

/-- Embeds `findInternalPackages` from `index.js` (lines 210-234): each
member workspace's manifest is read inside a per-workspace `try`; a
workspace whose `package.json` is unreadable or unparseable (`readPkg`
returns `none`) only triggers the warning
`Warning: Could not read package.json in ...` and is skipped, and a readable
manifest contributes an entry exactly when it has a truthy name and is not
private. -/
def findInternalPackages (workspaces : List String)
    (readPkg : String → Option Manifest) : List InternalPackage :=
  workspaces.flatMap fun workspace =>
    match readPkg workspace with
    | none => []
    | some pkgJson =>
        if jsTruthyName pkgJson.name && !pkgJson.isPrivate then
          [{ name := pkgJson.name.getD "",
             version := jsOrDefault pkgJson.version "0.0.0",
             path := workspace,
             description := jsOrDefault pkgJson.description "" }]
        else []

/-- An inquirer checkbox choice as built by the workspace selection prompts
in `src/index.ts`. -/
structure Choice where
  name : String
  value : String
deriving DecidableEq

/-- Embeds the interactive choice list built in `addToWorkspaces`,
`removeFromWorkspaces` and the install command of `src/index.ts` (lines
151-158): every member workspace's `package.json` is parsed with
`JSON.parse(readFileSync(...))` outside any per-workspace `try`, so the
first unreadable or unparseable member manifest raises an exception
(`Except.error`), which the command's outer handler turns into
`process.exit(1)` for the whole run. -/
def buildWorkspaceChoices (workspaces : List String)
    (readPkg : String → Option Manifest) : Except String (List Choice) :=
  match workspaces with
  | [] => Except.ok []
  | workspace :: rest =>
      match readPkg workspace with
      | none => Except.error ("Could not read package.json at " ++ workspace)
      | some pkgJson =>
          match buildWorkspaceChoices rest readPkg with
          | Except.error e => Except.error e
          | Except.ok choices =>
              Except.ok
                ({ name := pkgJson.name.getD "undefined"
                      ++ " (" ++ workspace ++ ")",
                   value := workspace } :: choices)

theorem flatMap_eq_flatMap_filter {α β : Type} (l : List α) (p : α → Bool)
    (f : α → List β) (h : ∀ a, p a = false → f a = []) :
    l.flatMap f = (l.filter p).flatMap f := by
  induction l with
  | nil => rfl
  | cons a rest ih =>
      rw [List.flatMap_cons, List.filter_cons]
      cases hp : p a
      · rw [h a hp, List.nil_append, ih]
        simp
      · simp only [if_true, List.flatMap_cons, ih]

/-- Counterexample to claim C3 as stated: a run of the TypeScript add,
remove or install command that enumerates member workspaces builds its
selection list with `buildWorkspaceChoices`; a member whose `package.json`
is unreadable or unparseable makes that construction raise an error, which
the command turns into `process.exit(1)` — the whole run terminates with an
error instead of skipping the member with a warning. -/
theorem buildWorkspaceChoices_aborts_counterexample :
    buildWorkspaceChoices ["apps/web"] (fun _ => none)
      = Except.error "Could not read package.json at apps/web" := rfl

/-- Claim C3 (amended): internal-package enumeration (`findInternalPackages`
in `index.js`) skips every member workspace whose manifest is unreadable or
unparseable, with a warning only — its result is the same as if the
unreadable members were absent, and it is a total function, so it can never
abort the run.  The interactive selection list of the TypeScript
add/remove/install commands, however, parses member manifests unprotected
and does abort the whole run on the first malformed one (see the
counterexample). -/
theorem findInternalPackages_skips_unreadable (workspaces : List String)
    (readPkg : String → Option Manifest) :
    findInternalPackages workspaces readPkg
      = findInternalPackages
          (workspaces.filter (fun w => (readPkg w).isSome)) readPkg := by
  unfold findInternalPackages
  apply flatMap_eq_flatMap_filter
  intro w hw
  cases h : readPkg w with
  | none => rfl
  | some pkgJson => simp [h] at hw

/-- A file system: the set of directories created so far and the files with
their contents, in creation order. -/
structure FileSystem where
  dirs : List String := []
  files : DepMap := []
deriving DecidableEq

/-- Embeds `fs.existsSync` for a directory path. -/
def dirExists (fs : FileSystem) (p : String) : Bool :=
  fs.dirs.contains p

/-- Embeds `fs.mkdirSync`. -/
def mkdirSync (fs : FileSystem) (p : String) : FileSystem :=
  { fs with dirs := fs.dirs ++ [p] }

/-- Embeds `fs.writeFileSync` (truncate-and-rewrite in place). -/
def writeFileSync (fs : FileSystem) (p content : String) : FileSystem :=
  { fs with files := setKey fs.files p content }

/-- The `type` tag of `createPackage` in `src/commands/package.ts`. -/
inductive PackageType where
  | package
  | app
deriving DecidableEq

/-- The details gathered by `promptPackageDetails` that `createPackage`
uses (prompting performs no filesystem writes). -/
structure ScaffoldDetails where
  name : String
  version : String
  description : String
  author : String
  isPrivate : Bool
  packageName : String
deriving DecidableEq

/-- Embeds `path.join` for two segments. -/
def pathJoin (a b : String) : String :=
  a ++ "/" ++ b

/-- The scaffolded `package.json` text written by `createPackage`
(JSON.stringify of the literal object built there; braces escaped). -/
def packageJsonContent (details : ScaffoldDetails) : String :=
  "\x7b \"name\": \"" ++ details.name ++ "\", \"version\": \""
    ++ details.version ++ "\", \"description\": \"" ++ details.description
    ++ "\", \"author\": \"" ++ details.author ++ "\", \"private\": "
    ++ (if details.isPrivate then "true" else "false")
    ++ ", \"main\": \"dist/index.js\", \"types\": \"dist/index.d.ts\" \x7d"

/-- The scaffolded `tsconfig.json` text (static in the source). -/
def tsconfigContent : String :=
  "\x7b \"extends\": \"../../tsconfig.json\", \"compilerOptions\": \x7b"
    ++ " \"outDir\": \"./dist\", \"rootDir\": \"./src\","
    ++ " \"declaration\": true, \"sourceMap\": true \x7d,"
    ++ " \"include\": [\"src/**/*\"],"
    ++ " \"exclude\": [\"node_modules\", \"dist\", \"**/*.test.ts\"] \x7d"

/-- The scaffolded `.eslintrc.js` text (static in the source). -/
def eslintrcContent : String :=
  "module.exports = \x7b extends: [\"../../.eslintrc.js\"],"
    ++ " parserOptions: \x7b project: \"./tsconfig.json\" \x7d \x7d"

/-- The scaffolded `README.md` text (title and description; the embedded
install-command snippet is immaterial here). -/
def readmeContent (details : ScaffoldDetails) : String :=
  "# " ++ details.name ++ "\n\n" ++ details.description
    ++ "\n\n## Installation\n\n## Usage\n"

/-- The scaffolded `src/index.ts` starter text. -/
def indexContent (details : ScaffoldDetails) : String :=
  "export const hello = () => \"Hello from " ++ details.name ++ "\";\n"

/-- The scaffolded `src/index.test.ts` starter text. -/
def testContent (details : ScaffoldDetails) : String :=
  "import \x7b hello \x7d from \"./index\";\n\ndescribe(\"" ++ details.name
    ++ "\", () => \x7b it(\"should return hello message\") \x7d);\n"

/-- The target directory computed by `createPackage`:
`path.join(process.cwd(), baseDir, packageName)` with `baseDir` chosen by the
type tag and `packageName` falling back through
`details.packageName || details.name.split('/').pop() || ''`. -/
def targetPackageDir (cwd : String) (details : ScaffoldDetails)
    (type : PackageType) : String :=
  let baseDir := if type = PackageType.app then "apps" else "packages"
  let packageName :=
    if details.packageName ≠ "" then details.packageName
    else jsOrDefault (details.name.splitOn "/").getLast? ""
  pathJoin (pathJoin cwd baseDir) packageName

/-- Embeds `createPackage` from `src/commands/package.ts` (lines 250-385),
starting at its first filesystem effect: if the target directory already
exists the function throws `Directory already exists: ...` (the surrounding
handler reports the error and exits 1); otherwise it creates the directory
tree and writes the manifest, tsconfig, eslintrc, readme and starter source
files.  The result pairs the final file system with the error, if any. -/
def createPackage (fs : FileSystem) (cwd : String) (details : ScaffoldDetails)
    (type : PackageType) : FileSystem × Option String :=
  let packageDir := targetPackageDir cwd details type
  if dirExists fs packageDir then
    (fs, some ("Directory already exists: " ++ packageDir))
  else
    let fs₁ := mkdirSync fs packageDir
    let fs₂ := mkdirSync fs₁ (pathJoin packageDir "src")
    let fs₃ := writeFileSync fs₂ (pathJoin packageDir "package.json")
      (packageJsonContent details)
    let fs₄ := writeFileSync fs₃ (pathJoin packageDir "tsconfig.json")
      tsconfigContent
    let fs₅ := writeFileSync fs₄ (pathJoin packageDir ".eslintrc.js")
      eslintrcContent
    let fs₆ := writeFileSync fs₅ (pathJoin packageDir "README.md")
      (readmeContent details)
    let fs₇ := writeFileSync fs₆
      (pathJoin (pathJoin packageDir "src") "index.ts")
      (indexContent details)
    let fs₈ := writeFileSync fs₇
      (pathJoin (pathJoin packageDir "src") "index.test.ts")
      (testContent details)
    (fs₈, none)

/-- Claim C8: when the target directory under `packages/` or `apps/` already
exists, `createPackage` fails with the `Directory already exists` error and
performs no write at all: the resulting file system is exactly the input
one, so the existing directory's contents are untouched. -/
theorem createPackage_existing_dir_untouched (fs : FileSystem) (cwd : String)
    (details : ScaffoldDetails) (type : PackageType)
    (h : dirExists fs (targetPackageDir cwd details type) = true) :
    (createPackage fs cwd details type).1 = fs ∧
    (createPackage fs cwd details type).2
      = some ("Directory already exists: "
          ++ targetPackageDir cwd details type) := by
  simp [createPackage, h]

/-- Witness for claim C8: scaffolding package `ui` into a tree that already
has `/repo/packages/ui` (holding one file) errors out and leaves the file
system unchanged. -/
theorem createPackage_existing_dir_untouched_witness :
    (createPackage
        { dirs := ["/repo/packages/ui"],
          files := [("/repo/packages/ui/package.json", "original")] }
        "/repo"
        { name := "ui", version := "0.0.1", description := "ui kit",
          author := "dev", isPrivate := false, packageName := "ui" }
        PackageType.package).1
      = { dirs := ["/repo/packages/ui"],
          files := [("/repo/packages/ui/package.json", "original")] } ∧
    (createPackage
        { dirs := ["/repo/packages/ui"],
          files := [("/repo/packages/ui/package.json", "original")] }
        "/repo"
        { name := "ui", version := "0.0.1", description := "ui kit",
          author := "dev", isPrivate := false, packageName := "ui" }
        PackageType.package).2
      = some ("Directory already exists: "
          ++ targetPackageDir "/repo"
              { name := "ui", version := "0.0.1", description := "ui kit",
                author := "dev", isPrivate := false, packageName := "ui" }
              PackageType.package) :=
  createPackage_existing_dir_untouched _ _ _ _ (by decide)

theorem getLast?_eq_of_suffix {b a : List Char} (h : b <:+ a) (hb : b ≠ []) :
    a.getLast? = b.getLast? := by
  obtain ⟨t, rfl⟩ := h
  rw [List.getLast?_append]
  cases hb' : b.getLast? with
  | none =>
      have : b.getLast?.isSome = true := List.getLast?_isSome.mpr hb
      rw [hb'] at this
      cases this
  | some x => rfl

theorem stripWorkspaceSuffix_append_suffix (s : String) :
    stripWorkspaceSuffix (s ++ "@workspace:") = s := by
  have hcond : "@workspace:".data <:+ (s ++ "@workspace:").data := by
    rw [String.data_append]
    exact List.suffix_append _ _
  unfold stripWorkspaceSuffix
  rw [if_pos hcond]
  apply String.ext
  show (s ++ "@workspace:").data.take
      ((s ++ "@workspace:").data.length - "@workspace:".data.length) = s.data
  rw [String.data_append, List.length_append,
    Nat.add_sub_cancel, List.take_left]

theorem stripWorkspaceSuffix_no_suffix (name : String) :
    stripWorkspaceSuffix (name ++ "@workspace:*") = name ++ "@workspace:*" := by
  unfold stripWorkspaceSuffix
  rw [if_neg]
  intro h
  have h1 := getLast?_eq_of_suffix h (by decide)
  rw [String.data_append, List.getLast?_append] at h1
  have e1 : ("@workspace:*".data).getLast? = some '*' := by decide
  have e2 : ("@workspace:".data).getLast? = some ':' := by decide
  rw [e1, e2] at h1
  have h2 : (some '*' : Option Char) = some ':' := h1
  exact absurd h2 (by decide)

/-- The checkbox value built by `selectInternalPackages` in `index.js`
(line 251): the template literal `${pkg.name}@workspace:*`. -/
def internalPackageChoiceValue (pkg : InternalPackage) : String :=
  pkg.name ++ "@workspace:*"

/-- Claim C10: the key written by `addDependencies` is the dependency string
with a trailing `@workspace:` suffix — and only that exact suffix — removed;
a selector-produced string `name@workspace:*` does not end in `@workspace:`,
so it is written verbatim, `@workspace:*` suffix included, as the dependency
key. -/
theorem addDependencies_selector_key_verbatim (s : String)
    (pkg : InternalPackage) (pkgJson : Manifest) (packageManager : String) :
    stripWorkspaceSuffix (s ++ "@workspace:") = s ∧
    stripWorkspaceSuffix (internalPackageChoiceValue pkg)
      = internalPackageChoiceValue pkg ∧
    ((addDependencies pkgJson [internalPackageChoiceValue pkg]
        packageManager).dependencies.getD []).lookup
        (internalPackageChoiceValue pkg)
      = some (if packageManager = "pnpm" then "workspace:*" else "*") := by
  have hs : stripWorkspaceSuffix (internalPackageChoiceValue pkg)
      = internalPackageChoiceValue pkg :=
    stripWorkspaceSuffix_no_suffix pkg.name
  refine ⟨stripWorkspaceSuffix_append_suffix s, hs, ?_⟩
  have h : ((addDependencies pkgJson [internalPackageChoiceValue pkg]
      packageManager).dependencies.getD []).lookup
      (stripWorkspaceSuffix (internalPackageChoiceValue pkg))
      = some (if packageManager = "pnpm" then "workspace:*" else "*") := by
    simp only [addDependencies, Option.getD_some]
    exact lookup_addDependencies_fold _ _ _ _ (by simp)
  rwa [hs] at h

end Kabob
